import Mathlib

/-!
Shallow embedding of the DMPC repository's core, checked against its
natural-language specification.

Part 1 — the `users` package's record model and LWW merge engine
(`applyUpdateRequest`, `booleanRecord.update`, `keyRecord.update`).
`time.Time` is embedded as `Nat`; Go's `t.After(u)` is `t > u`.
Go methods mutate the receiver in place; here each operation returns the
new record (and the `update` methods return the accepted flag paired with
the new field state, matching their `bool` result).

Part 2 — the `core` package's crypto utilities. The cryptographic
primitives themselves (AEAD, RSA, base64, the PEM/PKIX codecs of the Go
standard library) are parameters of the embedding, bundled in structures,
so the theorems are about how the repository's code composes them.
-/

namespace DMPC

/-- Go `rsa.PublicKey` (only its value identity matters here): modulus and
exponent as naturals. -/
structure rsaPublicKey where
  n : Nat
  e : Nat
deriving DecidableEq, Repr

/-- Go `rsa.PrivateKey`, of which the code under study only reads the
embedded `PublicKey` field. -/
structure rsaPrivateKey where
  PublicKey : rsaPublicKey
deriving DecidableEq, Repr

/-- `booleanRecord`: a boolean leaf field with its last-write timestamp. -/
structure booleanRecord where
  Ok : Bool
  UpdatedAt : Nat
deriving DecidableEq, Repr

/-- `keyRecord`: a public-key leaf field with its last-write timestamp. -/
structure keyRecord where
  Key : rsaPublicKey
  UpdatedAt : Nat
deriving DecidableEq, Repr

/-- `channelPermissionsRecord`: the `Channel` sub-container. -/
structure channelPermissionsRecord where
  Add : booleanRecord
  UpdatedAt : Nat
deriving DecidableEq, Repr

/-- `userPermissionsRecord`: the `User` sub-container with five boolean
leaves. -/
structure userPermissionsRecord where
  Add : booleanRecord
  Remove : booleanRecord
  EncKeyUpdate : booleanRecord
  SignKeyUpdate : booleanRecord
  PermissionsUpdate : booleanRecord
  UpdatedAt : Nat
deriving DecidableEq, Repr

/-- `permissionsRecord`: the permissions container. -/
structure permissionsRecord where
  Channel : channelPermissionsRecord
  User : userPermissionsRecord
  UpdatedAt : Nat
deriving DecidableEq, Repr

/-- `userRecord`: the root record of a user. -/
structure userRecord where
  Id : String
  EncKey : keyRecord
  SignKey : keyRecord
  Permissions : permissionsRecord
  Active : booleanRecord
  CreatedAt : Nat
  UpdatedAt : Nat
deriving DecidableEq, Repr

/-- The permissions part of a request's `Data`, as read by
`applyUpdateRequest` (`req.Data.Permissions.Channel.Add`,
`req.Data.Permissions.User.*`). -/
structure channelPermissionsObject where
  Add : Bool
deriving DecidableEq, Repr

structure userPermissionsObject where
  Add : Bool
  Remove : Bool
  EncKeyUpdate : Bool
  SignKeyUpdate : Bool
  PermissionsUpdate : Bool
deriving DecidableEq, Repr

structure permissionsObject where
  Channel : channelPermissionsObject
  User : userPermissionsObject
deriving DecidableEq, Repr

/-- The fields of `req.Data` that `applyUpdateRequest` reads. The struct
declaration itself lives outside the sources at hand; the shape is fixed by
the reads `req.Data.Active`, `*req.Data.encKeyObject`,
`*req.Data.signKeyObject` and `req.Data.Permissions...`. The two key
pointers are dereferenced unconditionally by the code, so they are embedded
as plain values. -/
structure userObject where
  Active : Bool
  encKeyObject : rsaPublicKey
  signKeyObject : rsaPublicKey
  Permissions : permissionsObject
deriving DecidableEq, Repr

/-- The fields of `UserRequest` that `applyUpdateRequest` reads: the list of
field paths updated, the request data, and the single shared timestamp. -/
structure UserRequest where
  FieldsUpdated : List String
  Data : userObject
  Timestamp : Nat
deriving DecidableEq, Repr

/-- `booleanRecord.update`: accept the candidate value iff its timestamp is
strictly after the field's current one; returns the Go method's `bool`
result paired with the field's new state. -/
def booleanRecord.update (perm : booleanRecord) (val : Bool) (time : Nat) :
    Bool × booleanRecord :=
  if time > perm.UpdatedAt then
    (true, { Ok := val, UpdatedAt := time })
  else
    (false, perm)

/-- `keyRecord.update`: same last-writer-wins rule for key fields. -/
def keyRecord.update (keyRec : keyRecord) (val : rsaPublicKey) (time : Nat) :
    Bool × keyRecord :=
  if time > keyRec.UpdatedAt then
    (true, { Key := val, UpdatedAt := time })
  else
    (false, keyRec)

/-- The nine field paths recognized by the `switch` in
`applyUpdateRequest`; any other string falls through to the switch's
implicit default, a no-op. -/
inductive FieldPath where
  | active
  | encKey
  | signKey
  | channelAdd
  | userAdd
  | userRemove
  | userEncKeyUpdate
  | userSignKeyUpdate
  | userPermissionsUpdate
deriving DecidableEq, Repr, Fintype

/-- The string cases of the `switch` statement in `applyUpdateRequest`,
as a partial parse; `none` is the switch's implicit default. -/
def parseFieldPath : String → Option FieldPath
  | "active" => some .active
  | "encKey" => some .encKey
  | "signKey" => some .signKey
  | "permissions.channel.add" => some .channelAdd
  | "permissions.user.add" => some .userAdd
  | "permissions.user.remove" => some .userRemove
  | "permissions.user.encKeyUpdate" => some .userEncKeyUpdate
  | "permissions.user.signKeyUpdate" => some .userSignKeyUpdate
  | "permissions.user.permissionsUpdate" => some .userPermissionsUpdate
  | _ => none

/-- One arm of the `switch` in `applyUpdateRequest`: apply the leaf's
`update` and, on acceptance, stamp the request timestamp on every ancestor
container on the leaf's path (the root for the three top-level fields; root,
`Permissions` and the `Channel`/`User` sub-container for permission
fields). The five `permissions.user.*` arms share one body in the source,
selecting the leaf and request value by a nested switch; here each arm is
written out with the same shared shape. -/
def applyFieldUpdate (record : userRecord) (p : FieldPath) (data : userObject)
    (timestamp : Nat) : userRecord :=
  match p with
  | .active =>
    let u := record.Active.update data.Active timestamp
    let record1 := { record with Active := u.2 }
    if u.1 then { record1 with UpdatedAt := timestamp } else record1
  | .encKey =>
    let u := record.EncKey.update data.encKeyObject timestamp
    let record1 := { record with EncKey := u.2 }
    if u.1 then { record1 with UpdatedAt := timestamp } else record1
  | .signKey =>
    let u := record.SignKey.update data.signKeyObject timestamp
    let record1 := { record with SignKey := u.2 }
    if u.1 then { record1 with UpdatedAt := timestamp } else record1
  | .channelAdd =>
    let u := record.Permissions.Channel.Add.update data.Permissions.Channel.Add timestamp
    let record1 := { record with Permissions.Channel.Add := u.2 }
    if u.1 then
      { record1 with
          UpdatedAt := timestamp
          Permissions.UpdatedAt := timestamp
          Permissions.Channel.UpdatedAt := timestamp }
    else record1
  | .userAdd =>
    let u := record.Permissions.User.Add.update data.Permissions.User.Add timestamp
    let record1 := { record with Permissions.User.Add := u.2 }
    if u.1 then
      { record1 with
          UpdatedAt := timestamp
          Permissions.UpdatedAt := timestamp
          Permissions.User.UpdatedAt := timestamp }
    else record1
  | .userRemove =>
    let u := record.Permissions.User.Remove.update data.Permissions.User.Remove timestamp
    let record1 := { record with Permissions.User.Remove := u.2 }
    if u.1 then
      { record1 with
          UpdatedAt := timestamp
          Permissions.UpdatedAt := timestamp
          Permissions.User.UpdatedAt := timestamp }
    else record1
  | .userEncKeyUpdate =>
    let u := record.Permissions.User.EncKeyUpdate.update data.Permissions.User.EncKeyUpdate timestamp
    let record1 := { record with Permissions.User.EncKeyUpdate := u.2 }
    if u.1 then
      { record1 with
          UpdatedAt := timestamp
          Permissions.UpdatedAt := timestamp
          Permissions.User.UpdatedAt := timestamp }
    else record1
  | .userSignKeyUpdate =>
    let u := record.Permissions.User.SignKeyUpdate.update data.Permissions.User.SignKeyUpdate timestamp
    let record1 := { record with Permissions.User.SignKeyUpdate := u.2 }
    if u.1 then
      { record1 with
          UpdatedAt := timestamp
          Permissions.UpdatedAt := timestamp
          Permissions.User.UpdatedAt := timestamp }
    else record1
  | .userPermissionsUpdate =>
    let u := record.Permissions.User.PermissionsUpdate.update data.Permissions.User.PermissionsUpdate timestamp
    let record1 := { record with Permissions.User.PermissionsUpdate := u.2 }
    if u.1 then
      { record1 with
          UpdatedAt := timestamp
          Permissions.UpdatedAt := timestamp
          Permissions.User.UpdatedAt := timestamp }
    else record1

/-- The `switch` body for one element of `req.FieldsUpdated`: recognized
paths dispatch to `applyFieldUpdate`, anything else is a no-op. -/
def applyFieldString (record : userRecord) (field : String) (data : userObject)
    (timestamp : Nat) : userRecord :=
  match parseFieldPath field with
  | some p => applyFieldUpdate record p data timestamp
  | none => record

/-- The `for _, field := range req.FieldsUpdated` loop, as a left fold. -/
def applyFields (record : userRecord) (fields : List String) (data : userObject)
    (timestamp : Nat) : userRecord :=
  fields.foldl (fun r field => applyFieldString r field data timestamp) record

/-- `userRecord.applyUpdateRequest`: apply each named field path in order,
all against the request's one shared timestamp. The Go method mutates the
record and returns nothing; here it returns the new record. -/
def userRecord.applyUpdateRequest (record : userRecord) (req : UserRequest) :
    userRecord :=
  applyFields record req.FieldsUpdated req.Data req.Timestamp

/-! ### Part 2: `core` package crypto utilities -/

/-- `TemporaryEncryptionFields` of a temporary envelope. The Go
`map[string]string` of challenges is embedded as an association list (map
iteration order is irrelevant to every property stated here). -/
structure TemporaryEncryptionFields where
  Encrypted : Bool
  Challenges : List (String × String)
  Nonce : String
deriving Repr

/-- `TemporaryEncryptedOperation`: the temporary envelope. -/
structure TemporaryEncryptedOperation where
  Version : Float
  Encryption : TemporaryEncryptionFields
  Payload : String
deriving Repr

/-- The cryptographic primitives used by `GenerateTemporaryEncryptedOperation
WithEncryption`, as abstract parameters. `symmetricEncrypt key ad nonce
plaintext` merges Go's `NewAead(key)` with `SymmetricEncrypt(aead, ad, nonce,
plaintext)` (the AEAD is a function of the key alone); `asymmetricEncrypt`
is `AsymmetricEncrypt` with its error result dropped, as the source drops
it; `rawString` is Go's `string(bytes)` conversion. -/
structure CryptoPrimitives where
  symmetricEncrypt : List Nat → List Nat → List Nat → List Nat → List Nat
  asymmetricEncrypt : rsaPublicKey → List Nat → List Nat
  base64EncodeToString : List Nat → String
  rawString : List Nat → String

/-- `GenerateTemporaryEncryptedOperation`: populate the envelope, base64
encoding the nonce and payload unless the caller marked them already
encoded. -/
def GenerateTemporaryEncryptedOperation (P : CryptoPrimitives)
    (encrypted : Bool) (challenges : List (String × String))
    (nonce : List Nat) (nonceEncoded : Bool)
    (payload : List Nat) (payloadEncoded : Bool) :
    TemporaryEncryptedOperation :=
  let nonceResult := if nonceEncoded then P.rawString nonce else P.base64EncodeToString nonce
  let payloadResult := if payloadEncoded then P.rawString payload else P.base64EncodeToString payload
  { Version := 0.1
    Encryption :=
      { Encrypted := encrypted
        Challenges := challenges
        Nonce := nonceResult }
    Payload := payloadResult }

/-- `GenerateTemporaryEncryptedOperationWithEncryption` (the temporary
envelope sealer). The two `generateRandomBytes` draws and the
`generatePrivateKey()` fallback are passed in as `temporaryNonce`,
`temporaryKey` and `generatedKey`, making the randomness explicit; a `nil`
recipient key is `none`. The caller's `modifyChallenges` hook mutates the
challenges map in place in Go and is embedded as a function on the map. -/
def GenerateTemporaryEncryptedOperationWithEncryption (P : CryptoPrimitives)
    (temporaryNonce temporaryKey : List Nat) (generatedKey : rsaPrivateKey)
    (plainPayload : List Nat) (plaintextChallenge : List Nat)
    (modifyChallenges : List (String × String) → List (String × String))
    (recipientKey : Option rsaPrivateKey) :
    TemporaryEncryptedOperation × rsaPrivateKey :=
  let payloadCiphertext := P.symmetricEncrypt temporaryKey [] temporaryNonce plainPayload
  let challengeCiphertext := P.symmetricEncrypt temporaryKey [] temporaryNonce plaintextChallenge
  let recipientKeyResolved :=
    match recipientKey with
    | none => generatedKey
    | some k => k
  let symKeyEncrypted := P.asymmetricEncrypt recipientKeyResolved.PublicKey temporaryKey
  let challengeCiphertextBase64 := P.base64EncodeToString challengeCiphertext
  let symKeyEncryptedBase64 := P.base64EncodeToString symKeyEncrypted
  let challenges := [(symKeyEncryptedBase64, challengeCiphertextBase64)]
  let challenges := modifyChallenges challenges
  (GenerateTemporaryEncryptedOperation P true challenges temporaryNonce false
    payloadCiphertext false,
   recipientKeyResolved)

/-- Go `pem.Block` (the `Type` label and the DER payload; the field `Type`
is renamed `BlockType` as `Type` is reserved in Lean). -/
structure PEMBlock where
  BlockType : String
  Bytes : List Nat
deriving DecidableEq, Repr

/-- Result of `x509.ParsePKIXPublicKey`: an RSA key or a public key of some
other recognized type (named by a tag for concreteness). -/
inductive PKIXPublicKey where
  | rsa (key : rsaPublicKey)
  | other (kind : String)
deriving DecidableEq, Repr

/-- The Go standard library codec functions used by `AsymKeyToString` and
`StringToAsymKey`, as abstract parameters: `pem.Decode` (returning only the
block, as the source drops the rest), `x509.ParsePKIXPublicKey` (key or
error message; a successful parse has a `nil` error), `x509.MarshalPKIX
PublicKey` with its error dropped as in the source, and
`pem.EncodeToMemory`. -/
structure KeyCodec where
  pemDecode : String → Option PEMBlock
  parsePKIX : List Nat → Except String PKIXPublicKey
  marshalPKIX : rsaPublicKey → List Nat
  pemEncodeToMemory : PEMBlock → String

/-- Outcome of `StringToAsymKey` in Go: a key, an `error`, or a runtime
panic. -/
inductive AsymKeyResult where
  | ok (key : rsaPublicKey)
  | err (msg : String)
  | panicked
deriving DecidableEq, Repr

/-- `AsymKeyToString`: PKIX-marshal the key (error ignored by the source),
wrap it in a PEM block labelled `"RSA PUBLIC KEY"`, and return the encoded
text. (The source also `pem.Encode`s into a buffer it never reads; that
dead store is omitted.) -/
def AsymKeyToString (C : KeyCodec) (key : rsaPublicKey) : String :=
  let keyBytes := C.marshalPKIX key
  let block : PEMBlock := { BlockType := "RSA PUBLIC KEY", Bytes := keyBytes }
  C.pemEncodeToMemory block

/-- `StringToAsymKey`: decode the PEM block, parse the DER payload, and
require an RSA key. In the source's non-RSA arm the returned error is built
as `"unknown type of public key" + err.Error()` — but on that path `err` is
the `nil` error of the successful `ParsePKIXPublicKey` call, so `err.Error()`
dereferences a nil interface and panics; the embedding records that outcome
as `.panicked`. -/
def StringToAsymKey (C : KeyCodec) (rsaString : String) : AsymKeyResult :=
  match C.pemDecode rsaString with
  | none => .err "failed to parse PEM block containing the public key"
  | some block =>
    match C.parsePKIX block.Bytes with
    | .error e => .err ("failed to parse DER encoded public key: " ++ e)
    | .ok (.rsa pub) => .ok pub
    | .ok (.other _) => .panicked

/-- A concrete key codec for closed evaluations: it round-trips the single
key `⟨5, 3⟩` and exhibits the three input classes of `StringToAsymKey`
(well-formed RSA, valid PKIX of a non-RSA key, malformed PEM / malformed
DER). -/
def sampleCodec : KeyCodec :=
  { pemDecode := fun s =>
      if s = "RSA PUBLIC KEY|5,3" then
        some { BlockType := "RSA PUBLIC KEY", Bytes := [5, 3] }
      else if s = "PEM-EC" then
        some { BlockType := "PUBLIC KEY", Bytes := [2] }
      else if s = "PEM-BAD-DER" then
        some { BlockType := "RSA PUBLIC KEY", Bytes := [9] }
      else none
    parsePKIX := fun bs =>
      if bs = [5, 3] then .ok (.rsa { n := 5, e := 3 })
      else if bs = [2] then .ok (.other "ecdsa")
      else .error "asn1 structure error"
    marshalPKIX := fun k => [k.n, k.e]
    pemEncodeToMemory := fun b =>
      b.BlockType ++ "|" ++ String.intercalate "," (b.Bytes.map Nat.repr) }

/-- A successful PEM decode followed by a successful RSA PKIX parse makes
`StringToAsymKey` return that key. -/
theorem StringToAsymKey_ok (C : KeyCodec) (s : String) (block : PEMBlock)
    (k : rsaPublicKey) (h : C.pemDecode s = some block)
    (h2 : C.parsePKIX block.Bytes = .ok (.rsa k)) :
    StringToAsymKey C s = .ok k := by
  unfold StringToAsymKey
  simp only [h, h2]

/-! ### Supporting lemmas for the merge engine -/

/-- The leaf field addressed by a recognized path: its `UpdatedAt`. -/
def leafTS (r : userRecord) : FieldPath → Nat
  | .active => r.Active.UpdatedAt
  | .encKey => r.EncKey.UpdatedAt
  | .signKey => r.SignKey.UpdatedAt
  | .channelAdd => r.Permissions.Channel.Add.UpdatedAt
  | .userAdd => r.Permissions.User.Add.UpdatedAt
  | .userRemove => r.Permissions.User.Remove.UpdatedAt
  | .userEncKeyUpdate => r.Permissions.User.EncKeyUpdate.UpdatedAt
  | .userSignKeyUpdate => r.Permissions.User.SignKeyUpdate.UpdatedAt
  | .userPermissionsUpdate => r.Permissions.User.PermissionsUpdate.UpdatedAt

/-- Maximum `UpdatedAt` among the `Channel` sub-container's descendant
fields (its single leaf). -/
def chMax (r : userRecord) : Nat := r.Permissions.Channel.Add.UpdatedAt

/-- Maximum `UpdatedAt` among the `User` sub-container's five leaves. -/
def puMax (r : userRecord) : Nat :=
  max r.Permissions.User.Add.UpdatedAt
    (max r.Permissions.User.Remove.UpdatedAt
      (max r.Permissions.User.EncKeyUpdate.UpdatedAt
        (max r.Permissions.User.SignKeyUpdate.UpdatedAt
          r.Permissions.User.PermissionsUpdate.UpdatedAt)))

/-- Maximum `UpdatedAt` among all descendants of `Permissions`. -/
def permMax (r : userRecord) : Nat := max (chMax r) (puMax r)

/-- Maximum `UpdatedAt` among all leaf fields of the record. -/
def rootMax (r : userRecord) : Nat :=
  max r.Active.UpdatedAt
    (max r.EncKey.UpdatedAt (max r.SignKey.UpdatedAt (permMax r)))

/-- The spec's roll-up consistency invariant: every container's `UpdatedAt`
equals the maximum `UpdatedAt` among its descendant fields. -/
def rollUpInv (r : userRecord) : Prop :=
  r.UpdatedAt = rootMax r ∧
  r.Permissions.UpdatedAt = permMax r ∧
  r.Permissions.Channel.UpdatedAt = chMax r ∧
  r.Permissions.User.UpdatedAt = puMax r

instance rollUpInvDecidable (r : userRecord) : Decidable (rollUpInv r) := by
  unfold rollUpInv
  exact inferInstance

/-- A request data value used by concrete witnesses. -/
def sampleData : userObject :=
  { Active := true
    encKeyObject := { n := 7, e := 3 }
    signKeyObject := { n := 11, e := 5 }
    Permissions :=
      { Channel := { Add := true }
        User :=
          { Add := true, Remove := true, EncKeyUpdate := true,
            SignKeyUpdate := true, PermissionsUpdate := true } } }

/-- A record with every timestamp zero; the roll-up invariant holds. -/
def zeroRecord : userRecord :=
  { Id := "u"
    EncKey := { Key := { n := 1, e := 1 }, UpdatedAt := 0 }
    SignKey := { Key := { n := 1, e := 1 }, UpdatedAt := 0 }
    Permissions :=
      { Channel := { Add := { Ok := false, UpdatedAt := 0 }, UpdatedAt := 0 }
        User :=
          { Add := { Ok := false, UpdatedAt := 0 }
            Remove := { Ok := false, UpdatedAt := 0 }
            EncKeyUpdate := { Ok := false, UpdatedAt := 0 }
            SignKeyUpdate := { Ok := false, UpdatedAt := 0 }
            PermissionsUpdate := { Ok := false, UpdatedAt := 0 }
            UpdatedAt := 0 }
        UpdatedAt := 0 }
    Active := { Ok := false, UpdatedAt := 0 }
    CreatedAt := 0
    UpdatedAt := 0 }

/-- A record whose `SignKey` is far newer (timestamp 100) than its other
fields; the roll-up invariant holds (root `UpdatedAt` is 100). -/
def skewRecord : userRecord :=
  { zeroRecord with
      SignKey := { Key := { n := 1, e := 1 }, UpdatedAt := 100 }
      UpdatedAt := 100 }

theorem booleanRecord_update_stale (b : booleanRecord) (v : Bool) (t : Nat)
    (h : ¬ t > b.UpdatedAt) : b.update v t = (false, b) := by
  simp [booleanRecord.update, h]

theorem keyRecord_update_stale (k : keyRecord) (v : rsaPublicKey) (t : Nat)
    (h : ¬ t > k.UpdatedAt) : k.update v t = (false, k) := by
  simp [keyRecord.update, h]

/-- A stale candidate leaves the whole record untouched. -/
theorem applyFieldUpdate_stale (r : userRecord) (p : FieldPath)
    (d : userObject) (t : Nat) (h : ¬ t > leafTS r p) :
    applyFieldUpdate r p d t = r := by
  cases p <;>
    (simp only [leafTS] at h
     simp [applyFieldUpdate, booleanRecord.update, keyRecord.update, h])

/-- The addressed leaf's timestamp after the update: the candidate if
strictly newer, else unchanged. -/
theorem leafTS_applyFieldUpdate_self (r : userRecord) (p : FieldPath)
    (d : userObject) (t : Nat) :
    leafTS (applyFieldUpdate r p d t) p = if t > leafTS r p then t else leafTS r p := by
  cases p <;>
    simp [applyFieldUpdate, booleanRecord.update, keyRecord.update, leafTS] <;>
    split <;> simp [leafTS]

/-- Updating one leaf does not move any other leaf's timestamp. -/
theorem leafTS_applyFieldUpdate_other (r : userRecord) (p q : FieldPath)
    (d : userObject) (t : Nat) (h : q ≠ p) :
    leafTS (applyFieldUpdate r p d t) q = leafTS r q := by
  cases p <;> cases q <;> first
  | exact absurd rfl h
  | (simp [applyFieldUpdate, booleanRecord.update, keyRecord.update, leafTS] <;>
     split <;> simp [leafTS])

/-- Leaf timestamps never decrease across one switch arm. -/
theorem leafTS_applyFieldUpdate_mono (r : userRecord) (p q : FieldPath)
    (d : userObject) (t : Nat) :
    leafTS r q ≤ leafTS (applyFieldUpdate r p d t) q := by
  by_cases hq : q = p
  · subst hq
    rw [leafTS_applyFieldUpdate_self]
    split <;> omega
  · rw [leafTS_applyFieldUpdate_other r p q d t hq]

theorem leafTS_applyFieldString_mono (r : userRecord) (f : String)
    (q : FieldPath) (d : userObject) (t : Nat) :
    leafTS r q ≤ leafTS (applyFieldString r f d t) q := by
  unfold applyFieldString
  cases parseFieldPath f with
  | none => exact le_refl _
  | some p => exact leafTS_applyFieldUpdate_mono r p q d t

theorem leafTS_applyFields_mono (d : userObject) (t : Nat)
    (L : List String) (r : userRecord) (q : FieldPath) :
    leafTS r q ≤ leafTS (applyFields r L d t) q := by
  induction L generalizing r with
  | nil => exact le_refl _
  | cons f L ih =>
    calc leafTS r q ≤ leafTS (applyFieldString r f d t) q :=
          leafTS_applyFieldString_mono r f q d t
      _ ≤ _ := ih (applyFieldString r f d t)

theorem applyFields_cons (r : userRecord) (f : String) (L : List String)
    (d : userObject) (t : Nat) :
    applyFields r (f :: L) d t = applyFields (applyFieldString r f d t) L d t := rfl

theorem applyFields_append (r : userRecord) (L1 L2 : List String)
    (d : userObject) (t : Nat) :
    applyFields r (L1 ++ L2) d t = applyFields (applyFields r L1 d t) L2 d t := by
  unfold applyFields
  exact List.foldl_append _ _ _ _

/-- After processing a recognized field once, its leaf is at least the
request timestamp. -/
theorem leafTS_applyFieldString_processed (r : userRecord) (f : String)
    (p : FieldPath) (d : userObject) (t : Nat) (hp : parseFieldPath f = some p) :
    t ≤ leafTS (applyFieldString r f d t) p := by
  unfold applyFieldString
  rw [hp]
  rw [leafTS_applyFieldUpdate_self]
  split <;> omega

/-- Every recognized field named in the processed list ends with a leaf
timestamp at least the request timestamp. -/
theorem leafTS_applyFields_processed (d : userObject) (t : Nat)
    (L : List String) (r : userRecord) (f : String) (p : FieldPath)
    (hf : f ∈ L) (hp : parseFieldPath f = some p) :
    t ≤ leafTS (applyFields r L d t) p := by
  induction L generalizing r with
  | nil => cases hf
  | cons g L ih =>
    rw [applyFields_cons]
    rcases List.mem_cons.mp hf with hfg | hfL
    · subst hfg
      calc t ≤ leafTS (applyFieldString r f d t) p :=
            leafTS_applyFieldString_processed r f p d t hp
        _ ≤ _ := leafTS_applyFields_mono d t L _ p
    · exact ih (applyFieldString r g d t) hfL

/-- A single stale (or unrecognized) field is a no-op. -/
theorem applyFieldString_stale (s : userRecord) (f : String) (d : userObject)
    (t : Nat) (h : ∀ p, parseFieldPath f = some p → ¬ t > leafTS s p) :
    applyFieldString s f d t = s := by
  unfold applyFieldString
  cases hp : parseFieldPath f with
  | none => rfl
  | some p => exact applyFieldUpdate_stale s p d t (h p hp)

/-- A whole pass over fields that are all stale (or unrecognized) is the
identity. -/
theorem applyFields_stale (d : userObject) (t : Nat) (L : List String)
    (r : userRecord)
    (h : ∀ f ∈ L, ∀ p, parseFieldPath f = some p → ¬ t > leafTS r p) :
    applyFields r L d t = r := by
  induction L with
  | nil => rfl
  | cons f L ih =>
    have hstep : applyFieldString r f d t = r := by
      unfold applyFieldString
      cases hp : parseFieldPath f with
      | none => rfl
      | some p =>
        exact applyFieldUpdate_stale r p d t (h f (List.mem_cons_self f L) p hp)
    rw [applyFields_cons, hstep]
    exact ih (fun g hg p hp => h g (List.mem_cons_of_mem f hg) p hp)

set_option maxHeartbeats 2000000 in
/-- One switch arm preserves the roll-up invariant, provided the request
timestamp bounds every leaf timestamp from above; the bound itself is also
preserved. -/
theorem rollUp_step_known (s : userRecord) (p : FieldPath) (d : userObject)
    (t : Nat) (hinv : rollUpInv s) (hb : ∀ q, leafTS s q ≤ t) :
    rollUpInv (applyFieldUpdate s p d t) ∧
      ∀ q, leafTS (applyFieldUpdate s p d t) q ≤ t := by
  by_cases hc : t > leafTS s p
  case neg =>
    rw [applyFieldUpdate_stale s p d t hc]
    exact ⟨hinv, hb⟩
  case pos =>
    have hA := hb FieldPath.active
    have hE := hb FieldPath.encKey
    have hS := hb FieldPath.signKey
    have hC := hb FieldPath.channelAdd
    have hUA := hb FieldPath.userAdd
    have hUR := hb FieldPath.userRemove
    have hUE := hb FieldPath.userEncKeyUpdate
    have hUS := hb FieldPath.userSignKeyUpdate
    have hUP := hb FieldPath.userPermissionsUpdate
    simp only [leafTS] at hA hE hS hC hUA hUR hUE hUS hUP
    unfold rollUpInv rootMax permMax chMax puMax at hinv
    cases p <;>
      (simp only [leafTS] at hc
       simp [applyFieldUpdate, booleanRecord.update, keyRecord.update, hc]
       constructor
       · unfold rollUpInv rootMax permMax chMax puMax
         refine ⟨?_, ?_, ?_, ?_⟩ <;> simp <;> omega
       · intro q
         cases q <;> simp [leafTS] <;> omega)

/-- Each switch arm either leaves a leaf's timestamp alone or stamps it with
the request timestamp. -/
theorem leafTS_applyFieldString_cases (s : userRecord) (f : String)
    (d : userObject) (t : Nat) (p : FieldPath) :
    leafTS (applyFieldString s f d t) p = leafTS s p ∨
      leafTS (applyFieldString s f d t) p = t := by
  unfold applyFieldString
  cases hq : parseFieldPath f with
  | none => left; rfl
  | some q =>
    by_cases hpq : p = q
    · subst hpq
      rw [leafTS_applyFieldUpdate_self]
      split
      · right; rfl
      · left; rfl
    · left
      exact leafTS_applyFieldUpdate_other s q p d t hpq

/-- Over a whole pass, every leaf timestamp is either untouched or equals
the request timestamp. -/
theorem leafTS_applyFields_cases (d : userObject) (t : Nat) (L : List String)
    (s : userRecord) (p : FieldPath) :
    leafTS (applyFields s L d t) p = leafTS s p ∨
      leafTS (applyFields s L d t) p = t := by
  induction L generalizing s with
  | nil => left; rfl
  | cons f L ih =>
    rw [applyFields_cons]
    rcases ih (applyFieldString s f d t) with h | h
    · rw [h]
      exact leafTS_applyFieldString_cases s f d t p
    · right; exact h

/-! ### Claim theorems -/

/-- Claim C2: a leaf field update (`booleanRecord.update` or
`keyRecord.update`) is accepted, writing the candidate value and timestamp,
iff the candidate timestamp is strictly after the field's current
`UpdatedAt`; on exact equality the update is rejected and the existing
value wins. -/
theorem C2_leaf_update_accept_iff (b : booleanRecord) (k : keyRecord)
    (v : Bool) (kv : rsaPublicKey) (t : Nat) :
    ((b.update v t).1 = true ↔ t > b.UpdatedAt) ∧
    (b.update v t).2 =
      (if t > b.UpdatedAt then { Ok := v, UpdatedAt := t } else b) ∧
    b.update v b.UpdatedAt = (false, b) ∧
    ((k.update kv t).1 = true ↔ t > k.UpdatedAt) ∧
    (k.update kv t).2 =
      (if t > k.UpdatedAt then { Key := kv, UpdatedAt := t } else k) ∧
    k.update kv k.UpdatedAt = (false, k) := by
  unfold booleanRecord.update keyRecord.update
  refine ⟨?_, ?_, ?_, ?_, ?_, ?_⟩ <;> (try split) <;> simp_all

/-- Claim C5 (LWW idempotence): applying the identical update request twice
leaves the record exactly as after the first application, and a second
identical leaf update returns "not accepted" (`false`). -/
theorem C5_apply_update_request_idempotent (r : userRecord)
    (req : UserRequest) (b : booleanRecord) (v : Bool) (t : Nat) :
    (r.applyUpdateRequest req).applyUpdateRequest req = r.applyUpdateRequest req ∧
    ((b.update v t).2.update v t).1 = false := by
  constructor
  · unfold userRecord.applyUpdateRequest
    apply applyFields_stale
    intro f hf p hp
    have := leafTS_applyFields_processed req.Data req.Timestamp
      req.FieldsUpdated r f p hf hp
    omega
  · unfold booleanRecord.update
    split <;> simp_all

/-- Claim C6 counterexample: the claim asserts the final state after the two
updates is always the value submitted with T2 and `UpdatedAt = T2`; with the
field's current timestamp 10 and T1 = 1 < T2 = 2, both application orders
leave the field at its old state `⟨false, 10⟩`, not at `⟨true, 2⟩`. -/
theorem C6_lww_pair_counterexample :
    (((⟨false, 10⟩ : booleanRecord).update true 1).2.update true 2).2 =
      ⟨false, 10⟩ ∧
    (((⟨false, 10⟩ : booleanRecord).update true 2).2.update true 1).2 =
      ⟨false, 10⟩ ∧
    (⟨false, 10⟩ : booleanRecord) ≠ ⟨true, 2⟩ := by
  decide

/-- Claim C6 as amended: for T1 < T2 the two application orders always agree
on the final leaf state; when additionally T2 is strictly after the field's
current `UpdatedAt`, that common state is the value submitted with T2 with
`UpdatedAt = T2` (otherwise the field is unchanged in both orders). -/
theorem C6_lww_order_independent (b : booleanRecord) (k : keyRecord)
    (v1 v2 : Bool) (kv1 kv2 : rsaPublicKey) (t1 t2 : Nat) (h : t1 < t2) :
    ((b.update v1 t1).2.update v2 t2).2 = ((b.update v2 t2).2.update v1 t1).2 ∧
    ((k.update kv1 t1).2.update kv2 t2).2 = ((k.update kv2 t2).2.update kv1 t1).2 ∧
    (t2 > b.UpdatedAt →
      ((b.update v1 t1).2.update v2 t2).2 = { Ok := v2, UpdatedAt := t2 }) ∧
    (t2 > k.UpdatedAt →
      ((k.update kv1 t1).2.update kv2 t2).2 = { Key := kv2, UpdatedAt := t2 }) ∧
    (¬ t2 > b.UpdatedAt → ((b.update v1 t1).2.update v2 t2).2 = b) ∧
    (¬ t2 > b.UpdatedAt → ((b.update v2 t2).2.update v1 t1).2 = b) ∧
    (¬ t2 > k.UpdatedAt → ((k.update kv1 t1).2.update kv2 t2).2 = k) ∧
    (¬ t2 > k.UpdatedAt → ((k.update kv2 t2).2.update kv1 t1).2 = k) := by
  unfold booleanRecord.update keyRecord.update
  refine ⟨?_, ?_, ?_, ?_, ?_, ?_, ?_, ?_⟩ <;> (repeat' split) <;>
    (try intro hx) <;> (repeat' split) <;> simp_all <;> omega

theorem C6_lww_order_independent_witness :
    (1 : Nat) < 2 ∧
    ((((⟨false, 0⟩ : booleanRecord).update true 1).2.update false 2).2 =
        (((⟨false, 0⟩ : booleanRecord).update false 2).2.update true 1).2 ∧
     (((⟨⟨1, 1⟩, 0⟩ : keyRecord).update ⟨2, 2⟩ 1).2.update ⟨3, 3⟩ 2).2 =
        (((⟨⟨1, 1⟩, 0⟩ : keyRecord).update ⟨3, 3⟩ 2).2.update ⟨2, 2⟩ 1).2 ∧
     ((2 : Nat) > (⟨false, 0⟩ : booleanRecord).UpdatedAt →
       (((⟨false, 0⟩ : booleanRecord).update true 1).2.update false 2).2 =
         { Ok := false, UpdatedAt := 2 }) ∧
     ((2 : Nat) > (⟨⟨1, 1⟩, 0⟩ : keyRecord).UpdatedAt →
       (((⟨⟨1, 1⟩, 0⟩ : keyRecord).update ⟨2, 2⟩ 1).2.update ⟨3, 3⟩ 2).2 =
         { Key := ⟨3, 3⟩, UpdatedAt := 2 }) ∧
     (¬ (2 : Nat) > (⟨false, 0⟩ : booleanRecord).UpdatedAt →
       (((⟨false, 0⟩ : booleanRecord).update true 1).2.update false 2).2 =
         ⟨false, 0⟩) ∧
     (¬ (2 : Nat) > (⟨false, 0⟩ : booleanRecord).UpdatedAt →
       (((⟨false, 0⟩ : booleanRecord).update false 2).2.update true 1).2 =
         ⟨false, 0⟩) ∧
     (¬ (2 : Nat) > (⟨⟨1, 1⟩, 0⟩ : keyRecord).UpdatedAt →
       (((⟨⟨1, 1⟩, 0⟩ : keyRecord).update ⟨2, 2⟩ 1).2.update ⟨3, 3⟩ 2).2 =
         ⟨⟨1, 1⟩, 0⟩) ∧
     (¬ (2 : Nat) > (⟨⟨1, 1⟩, 0⟩ : keyRecord).UpdatedAt →
       (((⟨⟨1, 1⟩, 0⟩ : keyRecord).update ⟨3, 3⟩ 2).2.update ⟨2, 2⟩ 1).2 =
         ⟨⟨1, 1⟩, 0⟩)) :=
  ⟨by decide,
   C6_lww_order_independent ⟨false, 0⟩ ⟨⟨1, 1⟩, 0⟩ true false ⟨2, 2⟩ ⟨3, 3⟩ 1 2
     (by decide)⟩

/-- Claim C7: a field path that is not one of the nine recognized paths hits
the switch's implicit default and changes nothing — dropping it from the
request yields the same final record. The merge engine has no error
channel at all (the Go method returns nothing; this embedding is a total
function into `userRecord`), so neither unknown paths nor stale timestamps
can produce an error. -/
theorem C7_unknown_path_ignored (r : userRecord) (d : userObject) (t : Nat)
    (L1 L2 : List String) (f : String) (h : parseFieldPath f = none) :
    userRecord.applyUpdateRequest r ⟨L1 ++ f :: L2, d, t⟩ =
      userRecord.applyUpdateRequest r ⟨L1 ++ L2, d, t⟩ := by
  show applyFields r (L1 ++ f :: L2) d t = applyFields r (L1 ++ L2) d t
  rw [applyFields_append, applyFields_append, applyFields_cons]
  unfold applyFieldString
  rw [h]

theorem C7_unknown_path_ignored_witness :
    parseFieldPath "unknownField" = none ∧
    userRecord.applyUpdateRequest zeroRecord
        ⟨[] ++ "unknownField" :: ["active"], sampleData, 5⟩ =
      userRecord.applyUpdateRequest zeroRecord ⟨[] ++ ["active"], sampleData, 5⟩ :=
  ⟨by decide,
   C7_unknown_path_ignored zeroRecord sampleData 5 [] ["active"] "unknownField"
     (by decide)⟩

/-- Claim C8: a rejected field update (candidate timestamp not strictly
after the leaf's `UpdatedAt` at the moment it is processed) leaves the
record byte-for-byte unchanged, so the request behaves exactly as if the
rejected path were absent — the other paths' outcomes are untouched. -/
theorem C8_rejected_field_frame (r : userRecord) (d : userObject) (t : Nat)
    (L1 L2 : List String) (f : String) (p : FieldPath)
    (hp : parseFieldPath f = some p)
    (hstale : ¬ t > leafTS (applyFields r L1 d t) p) :
    userRecord.applyUpdateRequest r ⟨L1 ++ f :: L2, d, t⟩ =
      userRecord.applyUpdateRequest r ⟨L1 ++ L2, d, t⟩ := by
  show applyFields r (L1 ++ f :: L2) d t = applyFields r (L1 ++ L2) d t
  rw [applyFields_append, applyFields_append, applyFields_cons]
  have hstep : applyFieldString (applyFields r L1 d t) f d t =
      applyFields r L1 d t := by
    apply applyFieldString_stale
    intro q hq
    rw [hp] at hq
    injection hq with e
    subst e
    exact hstale
  rw [hstep]

theorem C8_rejected_field_frame_witness :
    parseFieldPath "active" = some FieldPath.active ∧
    ¬ (0 : Nat) > leafTS (applyFields zeroRecord [] sampleData 0) FieldPath.active ∧
    userRecord.applyUpdateRequest zeroRecord
        ⟨[] ++ "active" :: ["encKey"], sampleData, 0⟩ =
      userRecord.applyUpdateRequest zeroRecord ⟨[] ++ ["encKey"], sampleData, 0⟩ :=
  ⟨by decide, by decide,
   C8_rejected_field_frame zeroRecord sampleData 0 [] ["encKey"] "active"
     FieldPath.active (by decide) (by decide)⟩

/-- Claim C10: every path in a request is judged against the one shared
`req.Timestamp` (the embedded `UserRequest` carries a single `Timestamp`
field, so per-path timestamps are unrepresentable): after a request, every
leaf's `UpdatedAt` is either unchanged or equal to `req.Timestamp` — all
fields accepted in the same request end with identical `UpdatedAt` — and a
second occurrence of the same field path inside one request is always a
no-op, so a leaf is accepted at most once per request. -/
theorem C10_shared_request_timestamp (r : userRecord) (req : UserRequest) :
    (∀ p, leafTS (r.applyUpdateRequest req) p = leafTS r p ∨
        leafTS (r.applyUpdateRequest req) p = req.Timestamp) ∧
    (∀ (L1 L2 L3 : List String) (f : String) (d : userObject) (t : Nat),
      userRecord.applyUpdateRequest r ⟨L1 ++ f :: (L2 ++ f :: L3), d, t⟩ =
        userRecord.applyUpdateRequest r ⟨L1 ++ f :: (L2 ++ L3), d, t⟩) := by
  constructor
  · intro p
    exact leafTS_applyFields_cases req.Data req.Timestamp req.FieldsUpdated r p
  · intro L1 L2 L3 f d t
    show applyFields r (L1 ++ f :: (L2 ++ f :: L3)) d t =
      applyFields r (L1 ++ f :: (L2 ++ L3)) d t
    rw [applyFields_append, applyFields_append, applyFields_cons,
      applyFields_cons, applyFields_append, applyFields_append,
      applyFields_cons]
    have hskip :
        applyFieldString
            (applyFields (applyFieldString (applyFields r L1 d t) f d t) L2 d t)
            f d t =
          applyFields (applyFieldString (applyFields r L1 d t) f d t) L2 d t := by
      apply applyFieldString_stale
      intro q hq
      have h1 : t ≤ leafTS (applyFieldString (applyFields r L1 d t) f d t) q :=
        leafTS_applyFieldString_processed _ f q d t hq
      have h2 := leafTS_applyFields_mono d t L2
        (applyFieldString (applyFields r L1 d t) f d t) q
      omega
    rw [hskip]

/-- Claim C1 counterexample: the roll-up invariant holds on `skewRecord`
(whose `SignKey` leaf is at timestamp 100) but is destroyed by an accepted
`active` update at timestamp 10: the code sets the root `UpdatedAt` to 10
while the maximum descendant timestamp is still 100. -/
theorem C1_rollup_counterexample :
    rollUpInv skewRecord ∧
    ¬ rollUpInv
        (skewRecord.applyUpdateRequest ⟨["active"], sampleData, 10⟩) := by
  decide

/-- Claim C1 as amended: the roll-up invariant is preserved by
`applyUpdateRequest` provided the request's timestamp is at least every
leaf `UpdatedAt` of the record it is applied to (in particular whenever
request timestamps never lag the record); without that restriction an
accepted update can lower an ancestor below a newer sibling
(`C1_rollup_counterexample`). -/
theorem C1_rollup_invariant_preserved (r : userRecord) (req : UserRequest)
    (hinv : rollUpInv r) (hb : ∀ p, leafTS r p ≤ req.Timestamp) :
    rollUpInv (r.applyUpdateRequest req) := by
  unfold userRecord.applyUpdateRequest
  have main : ∀ (L : List String) (s : userRecord), rollUpInv s →
      (∀ p, leafTS s p ≤ req.Timestamp) →
      rollUpInv (applyFields s L req.Data req.Timestamp) := by
    intro L
    induction L with
    | nil => intro s hs _; exact hs
    | cons f L ih =>
      intro s hs hbs
      rw [applyFields_cons]
      unfold applyFieldString
      cases hp : parseFieldPath f with
      | none => exact ih s hs hbs
      | some p =>
        obtain ⟨h1, h2⟩ := rollUp_step_known s p req.Data req.Timestamp hs hbs
        exact ih _ h1 h2
  exact main _ r hinv hb

theorem C1_rollup_invariant_preserved_witness :
    rollUpInv zeroRecord ∧
    (∀ p, leafTS zeroRecord p ≤ (5 : Nat)) ∧
    rollUpInv
      (zeroRecord.applyUpdateRequest ⟨["active", "encKey"], sampleData, 5⟩) :=
  ⟨by decide, by decide,
   C1_rollup_invariant_preserved zeroRecord ⟨["active", "encKey"], sampleData, 5⟩
     (by decide) (by decide)⟩

/-- Claim C3: sealing a temporary envelope (identity challenge hook, so the
challenge map is exactly what the sealer builds) produces a challenges map
with exactly one entry for the one intended recipient — the recipient key
passed, or the freshly generated one when none is passed — whose map key is
the asymmetric encryption of the single-use symmetric key under that
recipient's public key and whose map value is the symmetric ciphertext of
the challenge plaintext under that key and the envelope's nonce (both
base64 encoded, as is the envelope's nonce field). -/
theorem C3_seal_one_challenge_per_recipient (P : CryptoPrimitives)
    (nonce key : List Nat) (genKey : rsaPrivateKey) (payload chal : List Nat)
    (rk : Option rsaPrivateKey) :
    (GenerateTemporaryEncryptedOperationWithEncryption P nonce key genKey
        payload chal id rk).1.Encryption.Challenges =
      [(P.base64EncodeToString
          (P.asymmetricEncrypt
            (GenerateTemporaryEncryptedOperationWithEncryption P nonce key
              genKey payload chal id rk).2.PublicKey key),
        P.base64EncodeToString (P.symmetricEncrypt key [] nonce chal))] ∧
    (GenerateTemporaryEncryptedOperationWithEncryption P nonce key genKey
        payload chal id rk).2 = rk.getD genKey ∧
    (GenerateTemporaryEncryptedOperationWithEncryption P nonce key genKey
        payload chal id rk).1.Encryption.Nonce =
      P.base64EncodeToString nonce := by
  cases rk <;> exact ⟨rfl, rfl, rfl⟩

/-- Claim C4: `StringToAsymKey` does return errors on malformed PEM and on
malformed DER, but on a valid PKIX encoding of a non-RSA public key it
panics instead of returning a `ParseError`: the source's non-RSA arm builds
its message with `err.Error()` where `err` is the nil error of the
successful `ParsePKIXPublicKey` call, a nil-interface dereference. The
last conjunct records that the panic outcome is neither an error return nor
a key. -/
theorem C4_non_rsa_key_panics :
    StringToAsymKey sampleCodec "no pem here" =
      .err "failed to parse PEM block containing the public key" ∧
    StringToAsymKey sampleCodec "PEM-BAD-DER" =
      .err ("failed to parse DER encoded public key: " ++ "asn1 structure error") ∧
    StringToAsymKey sampleCodec "PEM-EC" = .panicked ∧
    (∀ (m : String) (k : rsaPublicKey),
      AsymKeyResult.panicked ≠ .err m ∧ AsymKeyResult.panicked ≠ .ok k) := by
  refine ⟨rfl, rfl, rfl, ?_⟩
  intro m k
  exact ⟨fun h => AsymKeyResult.noConfusion h, fun h => AsymKeyResult.noConfusion h⟩

/-- Claim C9: for a key codec satisfying the Go standard library's
round-trip contracts at `k` (PEM encode/decode inverts on `k`'s block, and
PKIX parse inverts PKIX marshal on `k`), `AsymKeyToString k` is exactly the
PEM encoding of the block labelled `"RSA PUBLIC KEY"` whose payload is the
PKIX/DER encoding of `k`, and `StringToAsymKey` on that string returns `k`. -/
theorem C9_asym_key_roundtrip (C : KeyCodec) (k : rsaPublicKey)
    (hpem : C.pemDecode
        (C.pemEncodeToMemory ⟨"RSA PUBLIC KEY", C.marshalPKIX k⟩) =
      some ⟨"RSA PUBLIC KEY", C.marshalPKIX k⟩)
    (hpkix : C.parsePKIX (C.marshalPKIX k) = .ok (.rsa k)) :
    AsymKeyToString C k =
      C.pemEncodeToMemory ⟨"RSA PUBLIC KEY", C.marshalPKIX k⟩ ∧
    StringToAsymKey C (AsymKeyToString C k) = .ok k := by
  refine ⟨rfl, ?_⟩
  exact StringToAsymKey_ok C (AsymKeyToString C k)
    ⟨"RSA PUBLIC KEY", C.marshalPKIX k⟩ k hpem hpkix

theorem C9_asym_key_roundtrip_witness :
    sampleCodec.pemDecode
        (sampleCodec.pemEncodeToMemory
          ⟨"RSA PUBLIC KEY", sampleCodec.marshalPKIX ⟨5, 3⟩⟩) =
      some ⟨"RSA PUBLIC KEY", sampleCodec.marshalPKIX ⟨5, 3⟩⟩ ∧
    sampleCodec.parsePKIX (sampleCodec.marshalPKIX ⟨5, 3⟩) = .ok (.rsa ⟨5, 3⟩) ∧
    (AsymKeyToString sampleCodec ⟨5, 3⟩ =
        sampleCodec.pemEncodeToMemory
          ⟨"RSA PUBLIC KEY", sampleCodec.marshalPKIX ⟨5, 3⟩⟩ ∧
      StringToAsymKey sampleCodec (AsymKeyToString sampleCodec ⟨5, 3⟩) =
        .ok ⟨5, 3⟩) :=
  ⟨by rfl, by rfl, C9_asym_key_roundtrip sampleCodec ⟨5, 3⟩ (by rfl) (by rfl)⟩

end DMPC
